import Mathlib

/-!
Verification of the EVE data-access clients
(`sunpy/net/dataretriever/sources/eve.py`) and the EVE time-series sources
(`sunpy/timeseries/sources/eve.py`).

The Python query terms are objects classified by their runtime class name
(`Instrument`, `Level`, `Time`, `Source`); `Level` values may be Python ints
or strings.  Datetimes are compared componentwise (year, month, day, hour,
minute, second), which for in-range components agrees with the linear key
order used below.
-/

namespace Sunpy

/-- A Python `datetime.datetime` value, to second precision (the EVE code
compares datetimes and inspects `.time()`, `.hour`). -/
structure PyDateTime where
  year : Nat
  month : Nat
  day : Nat
  hour : Nat
  minute : Nat
  second : Nat
deriving DecidableEq, Repr

/-- Linear key giving the lexicographic componentwise order of `datetime`
comparison (months fit below 13, days below 32, hours below 24,
minutes and seconds below 60). -/
def PyDateTime.key (t : PyDateTime) : Nat :=
  ((((t.year * 13 + t.month) * 32 + t.day) * 24 + t.hour) * 60 + t.minute) * 60
    + t.second

/-- `datetime.datetime(2018, 4, 20)`: the Level-2B availability cutover. -/
def cutover2018_04_20 : PyDateTime := ⟨2018, 4, 20, 0, 0, 0⟩

/-- `datetime.datetime(2018, 4, 28)`: the Level-2 retirement cutover. -/
def cutover2018_04_28 : PyDateTime := ⟨2018, 4, 28, 0, 0, 0⟩

/-- The dynamic value of a `Level` attribute: a Python int or str. -/
inductive Value where
  | int (i : Int)
  | str (s : String)
deriving DecidableEq, Repr

/-- A query term, tagged by the runtime class name that
`_can_handle_query` dispatches on.  `Time` carries the term's
`.start` and `.end` datetimes (`stop` models `.end`). -/
inductive Attr where
  | Instrument (value : String)
  | Level (value : Value)
  | Time (start stop : PyDateTime)
  | Source (value : String)
deriving DecidableEq, Repr

/-- Python `str.lower()`, modelled characterwise (all strings compared by
this code are ASCII, where `Char.toLower` agrees with Python). -/
def pyLower (s : String) : String := ⟨s.data.map Char.toLower⟩

/-- Insertion into a Python `set`, modelled on lists: adding an element
already present leaves the set unchanged. -/
def setInsert (n : String) (s : List String) : List String :=
  if n ∈ s then s else n :: s

/-- One step of a kind-set `_can_handle_query` loop: `classify x` is the
class name added by the branch (if any) that term `x` satisfies. -/
def kindStep (classify : Attr → Option String) (chk : List String) (x : Attr) :
    List String :=
  match classify x with
  | some n => setInsert n chk
  | none => chk

/-- The `chk_var` set built by iterating the loop body over all terms. -/
def kindFold (classify : Attr → Option String) (query : List Attr) :
    List String :=
  query.foldl (kindStep classify) []

/-- `EVELevel2BClient._can_handle_query` branch classification
(eve.py lines 201-212): `Instrument` with value `'eve'` (lowercased),
`Level` with a str value lowercasing to `'2b'`, `Time` with
`end >= datetime(2018, 4, 20)`. -/
def EVELevel2BClient.classify (x : Attr) : Option String :=
  match x with
  | .Instrument v => if pyLower v = "eve" then some "Instrument" else none
  | .Level v =>
    match v with
    | .str s => if pyLower s = "2b" then some "Level" else none
    | .int _ => none
  | .Time _ e =>
    if cutover2018_04_20.key ≤ e.key then some "Time" else none
  | .Source _ => none

/-- `EVELevel2BClient._can_handle_query` (eve.py lines 187-215):
true iff the kind-set reaches size 3. -/
def EVELevel2BClient.canHandleQuery (query : List Attr) : Bool :=
  (kindFold EVELevel2BClient.classify query).length == 3

/-- `EVELevel2Client._can_handle_query` branch classification
(eve.py lines 267-279): `Instrument` `'eve'`, `Level` equal to int `2`
or str `'2'`, `Time` with `start < datetime(2018, 4, 28)`. -/
def EVELevel2Client.classify (x : Attr) : Option String :=
  match x with
  | .Instrument v => if pyLower v = "eve" then some "Instrument" else none
  | .Level v =>
    match v with
    | .int i => if i = 2 then some "Level" else none
    | .str s => if s = "2" then some "Level" else none
  | .Time s _ =>
    if s.key < cutover2018_04_28.key then some "Time" else none
  | .Source _ => none

/-- `EVELevel2Client._can_handle_query` (eve.py lines 253-281). -/
def EVELevel2Client.canHandleQuery (query : List Attr) : Bool :=
  (kindFold EVELevel2Client.classify query).length == 3

/-- `EVELevel3Client._can_handle_query` branch classification
(eve.py lines 335-343): `Instrument` `'eve'`, `Level` equal to int `3`
or str `'3'`; no `Time` branch. -/
def EVELevel3Client.classify (x : Attr) : Option String :=
  match x with
  | .Instrument v => if pyLower v = "eve" then some "Instrument" else none
  | .Level v =>
    match v with
    | .int i => if i = 3 then some "Level" else none
    | .str s => if s = "3" then some "Level" else none
  | .Time _ _ => none
  | .Source _ => none

/-- `EVELevel3Client._can_handle_query` (eve.py lines 321-345). -/
def EVELevel3Client.canHandleQuery (query : List Attr) : Bool :=
  (kindFold EVELevel3Client.classify query).length == 2

/-- `EVELevel3MergedClient._can_handle_query` branch classification
(eve.py lines 399-406): `Instrument` `'eve'`, `Level` a str lowercasing
to `'3m'` or `'3merged'`. -/
def EVELevel3MergedClient.classify (x : Attr) : Option String :=
  match x with
  | .Instrument v => if pyLower v = "eve" then some "Instrument" else none
  | .Level v =>
    match v with
    | .str s =>
      if pyLower s = "3m" ∨ pyLower s = "3merged" then some "Level" else none
    | .int _ => none
  | .Time _ _ => none
  | .Source _ => none

/-- `EVELevel3MergedClient._can_handle_query` (eve.py lines 385-408). -/
def EVELevel3MergedClient.canHandleQuery (query : List Attr) : Bool :=
  (kindFold EVELevel3MergedClient.classify query).length == 2

/-- One step of `EVEClient._can_handle_query`'s plain counter
(eve.py lines 106-112): `chk_var` is incremented for an `Instrument`
term with value `'eve'` (lowercased) and for a `Level` term whose value
equals the int `0`. -/
def EVEClient.countStep (chk : Nat) (x : Attr) : Nat :=
  match x with
  | .Instrument v => if pyLower v = "eve" then chk + 1 else chk
  | .Level v => if v = .int 0 then chk + 1 else chk
  | _ => chk

/-- `EVEClient._can_handle_query` (eve.py lines 92-116): true iff the
running count equals exactly 2. -/
def EVEClient.canHandleQuery (query : List Attr) : Bool :=
  query.foldl EVEClient.countStep 0 == 2

/-- The condition counted by `EVEClient._can_handle_query`, as a predicate
on a single term. -/
def EVEClient.termMatches (x : Attr) : Bool :=
  match x with
  | .Instrument v => pyLower v == "eve"
  | .Level v => v == .int 0
  | _ => false

theorem setInsert_mem {n m : String} {s : List String} :
    n ∈ setInsert m s ↔ n = m ∨ n ∈ s := by
  unfold setInsert
  by_cases h : m ∈ s
  · simp only [if_pos h]
    constructor
    · exact fun hn => Or.inr hn
    · rintro (rfl | hn)
      · exact h
      · exact hn
  · simp [if_neg h]

theorem setInsert_nodup {m : String} {s : List String} (h : s.Nodup) :
    (setInsert m s).Nodup := by
  unfold setInsert
  by_cases hm : m ∈ s
  · simpa [if_pos hm]
  · simpa [if_neg hm, List.nodup_cons] using ⟨hm, h⟩

theorem kindFold_go_mem (classify : Attr → Option String) (q : List Attr) :
    ∀ (acc : List String) (n : String),
      n ∈ q.foldl (kindStep classify) acc ↔
        (∃ x ∈ q, classify x = some n) ∨ n ∈ acc := by
  induction q with
  | nil => intro acc n; simp
  | cons y ys ih =>
    intro acc n
    simp only [List.foldl_cons, ih, List.mem_cons]
    constructor
    · rintro (⟨x, hx, hcx⟩ | hacc)
      · exact Or.inl ⟨x, Or.inr hx, hcx⟩
      · unfold kindStep at hacc
        cases hcy : classify y with
        | none => rw [hcy] at hacc; exact Or.inr hacc
        | some m =>
          rw [hcy] at hacc
          rcases setInsert_mem.mp hacc with rfl | hacc2
          · exact Or.inl ⟨y, Or.inl rfl, hcy⟩
          · exact Or.inr hacc2
    · rintro (⟨x, hx | hx, hcx⟩ | hacc)
      · subst hx
        refine Or.inr ?_
        unfold kindStep
        rw [hcx]
        exact setInsert_mem.mpr (Or.inl rfl)
      · exact Or.inl ⟨x, hx, hcx⟩
      · refine Or.inr ?_
        unfold kindStep
        cases hcy : classify y with
        | none => exact hacc
        | some m => exact setInsert_mem.mpr (Or.inr hacc)

theorem kindFold_mem (classify : Attr → Option String) (q : List Attr)
    (n : String) :
    n ∈ kindFold classify q ↔ ∃ x ∈ q, classify x = some n := by
  unfold kindFold
  rw [kindFold_go_mem]
  simp

theorem kindFold_go_nodup (classify : Attr → Option String) (q : List Attr) :
    ∀ acc : List String, acc.Nodup →
      (q.foldl (kindStep classify) acc).Nodup := by
  induction q with
  | nil => intro acc h; simpa
  | cons y ys ih =>
    intro acc h
    simp only [List.foldl_cons]
    apply ih
    unfold kindStep
    cases classify y with
    | none => exact h
    | some m => exact setInsert_nodup h

theorem kindFold_nodup (classify : Attr → Option String) (q : List Attr) :
    (kindFold classify q).Nodup :=
  kindFold_go_nodup classify q [] List.nodup_nil

theorem length_eq_three_iff {s : List String} {a b c : String}
    (hnd : s.Nodup) (hsub : ∀ n ∈ s, n = a ∨ n = b ∨ n = c)
    (hab : a ≠ b) (hac : a ≠ c) (hbc : b ≠ c) :
    s.length = 3 ↔ a ∈ s ∧ b ∈ s ∧ c ∈ s := by
  constructor
  · intro hlen
    refine ⟨?_, ?_, ?_⟩
    · by_contra ha
      have hsub2 : s ⊆ [b, c] := by
        intro n hn
        rcases hsub n hn with rfl | rfl | rfl
        · exact absurd hn ha
        · simp
        · simp
      have := (List.subperm_of_subset hnd hsub2).length_le
      simp [hlen] at this
    · by_contra hb
      have hsub2 : s ⊆ [a, c] := by
        intro n hn
        rcases hsub n hn with rfl | rfl | rfl
        · simp
        · exact absurd hn hb
        · simp
      have := (List.subperm_of_subset hnd hsub2).length_le
      simp [hlen] at this
    · by_contra hc
      have hsub2 : s ⊆ [a, b] := by
        intro n hn
        rcases hsub n hn with rfl | rfl | rfl
        · simp
        · simp
        · exact absurd hn hc
      have := (List.subperm_of_subset hnd hsub2).length_le
      simp [hlen] at this
  · rintro ⟨ha, hb, hc⟩
    have habc : ([a, b, c] : List String).Nodup := by
      simp [List.nodup_cons, hab, hac, hbc]
    have h1 : ([a, b, c] : List String) ⊆ s := by
      intro n hn
      simp only [List.mem_cons, List.not_mem_nil, or_false] at hn
      rcases hn with rfl | rfl | rfl
      · exact ha
      · exact hb
      · exact hc
    have h2 : s ⊆ [a, b, c] := by
      intro n hn
      rcases hsub n hn with rfl | rfl | rfl <;> simp
    have hle : s.length ≤ 3 := by
      simpa using (List.subperm_of_subset hnd h2).length_le
    have hge : 3 ≤ s.length := by
      simpa using (List.subperm_of_subset habc h1).length_le
    omega

theorem length_eq_two_iff {s : List String} {a b : String}
    (hnd : s.Nodup) (hsub : ∀ n ∈ s, n = a ∨ n = b) (hab : a ≠ b) :
    s.length = 2 ↔ a ∈ s ∧ b ∈ s := by
  constructor
  · intro hlen
    constructor
    · by_contra ha
      have hsub2 : s ⊆ [b] := by
        intro n hn
        rcases hsub n hn with rfl | rfl
        · exact absurd hn ha
        · simp
      have := (List.subperm_of_subset hnd hsub2).length_le
      simp [hlen] at this
    · by_contra hb
      have hsub2 : s ⊆ [a] := by
        intro n hn
        rcases hsub n hn with rfl | rfl
        · simp
        · exact absurd hn hb
      have := (List.subperm_of_subset hnd hsub2).length_le
      simp [hlen] at this
  · rintro ⟨ha, hb⟩
    have hab2 : ([a, b] : List String).Nodup := by
      simp [List.nodup_cons, hab]
    have h1 : ([a, b] : List String) ⊆ s := by
      intro n hn
      simp only [List.mem_cons, List.not_mem_nil, or_false] at hn
      rcases hn with rfl | rfl
      · exact ha
      · exact hb
    have h2 : s ⊆ [a, b] := by
      intro n hn
      rcases hsub n hn with rfl | rfl <;> simp
    have hle : s.length ≤ 2 := by
      simpa using (List.subperm_of_subset hnd h2).length_le
    have hge : 2 ≤ s.length := by
      simpa using (List.subperm_of_subset hab2 h1).length_le
    omega

theorem EVELevel2BClient.l2b_hit_instrument (query : List Attr) :
    (∃ x ∈ query, EVELevel2BClient.classify x = some "Instrument") ↔
      ∃ v, Attr.Instrument v ∈ query ∧ pyLower v = "eve" := by
  constructor
  · rintro ⟨x, hx, hcx⟩
    cases x with
    | Instrument v =>
      refine ⟨v, hx, ?_⟩
      simp only [EVELevel2BClient.classify] at hcx
      split at hcx
      · assumption
      · exact Option.noConfusion hcx
    | Level v =>
      exfalso
      cases v with
      | int i => simp [EVELevel2BClient.classify] at hcx
      | str s =>
        simp only [EVELevel2BClient.classify] at hcx
        split at hcx
        · exact absurd (Option.some.inj hcx) (by decide)
        · exact Option.noConfusion hcx
    | Time ts te =>
      exfalso
      simp only [EVELevel2BClient.classify] at hcx
      split at hcx
      · exact absurd (Option.some.inj hcx) (by decide)
      · exact Option.noConfusion hcx
    | Source v => simp [EVELevel2BClient.classify] at hcx
  · rintro ⟨v, hv, hlow⟩
    exact ⟨Attr.Instrument v, hv, by simp [EVELevel2BClient.classify, hlow]⟩

theorem EVELevel2BClient.l2b_hit_level (query : List Attr) :
    (∃ x ∈ query, EVELevel2BClient.classify x = some "Level") ↔
      ∃ s, Attr.Level (Value.str s) ∈ query ∧ pyLower s = "2b" := by
  constructor
  · rintro ⟨x, hx, hcx⟩
    cases x with
    | Instrument v =>
      exfalso
      simp only [EVELevel2BClient.classify] at hcx
      split at hcx
      · exact absurd (Option.some.inj hcx) (by decide)
      · exact Option.noConfusion hcx
    | Level v =>
      cases v with
      | int i => simp [EVELevel2BClient.classify] at hcx
      | str s =>
        refine ⟨s, hx, ?_⟩
        simp only [EVELevel2BClient.classify] at hcx
        split at hcx
        · assumption
        · exact Option.noConfusion hcx
    | Time ts te =>
      exfalso
      simp only [EVELevel2BClient.classify] at hcx
      split at hcx
      · exact absurd (Option.some.inj hcx) (by decide)
      · exact Option.noConfusion hcx
    | Source v => simp [EVELevel2BClient.classify] at hcx
  · rintro ⟨s, hs, hlow⟩
    exact ⟨Attr.Level (Value.str s), hs,
      by simp [EVELevel2BClient.classify, hlow]⟩

theorem EVELevel2BClient.l2b_hit_time (query : List Attr) :
    (∃ x ∈ query, EVELevel2BClient.classify x = some "Time") ↔
      ∃ ts te, Attr.Time ts te ∈ query ∧ cutover2018_04_20.key ≤ te.key := by
  constructor
  · rintro ⟨x, hx, hcx⟩
    cases x with
    | Instrument v =>
      exfalso
      simp only [EVELevel2BClient.classify] at hcx
      split at hcx
      · exact absurd (Option.some.inj hcx) (by decide)
      · exact Option.noConfusion hcx
    | Level v =>
      exfalso
      cases v with
      | int i => simp [EVELevel2BClient.classify] at hcx
      | str s =>
        simp only [EVELevel2BClient.classify] at hcx
        split at hcx
        · exact absurd (Option.some.inj hcx) (by decide)
        · exact Option.noConfusion hcx
    | Time ts te =>
      refine ⟨ts, te, hx, ?_⟩
      simp only [EVELevel2BClient.classify] at hcx
      split at hcx
      · assumption
      · exact Option.noConfusion hcx
    | Source v => simp [EVELevel2BClient.classify] at hcx
  · rintro ⟨ts, te, ht, hcut⟩
    exact ⟨Attr.Time ts te, ht, by simp [EVELevel2BClient.classify, hcut]⟩

/-- Characterization of the Level-2B predicate: true iff the query holds a
matching term of each of the three checked kinds. -/
theorem EVELevel2BClient.l2b_canHandle_iff (query : List Attr) :
    EVELevel2BClient.canHandleQuery query = true ↔
      (∃ v, Attr.Instrument v ∈ query ∧ pyLower v = "eve") ∧
      (∃ s, Attr.Level (Value.str s) ∈ query ∧ pyLower s = "2b") ∧
      (∃ ts te, Attr.Time ts te ∈ query ∧ cutover2018_04_20.key ≤ te.key) := by
  unfold EVELevel2BClient.canHandleQuery
  rw [beq_iff_eq]
  have hnd := kindFold_nodup EVELevel2BClient.classify query
  have hsub : ∀ n ∈ kindFold EVELevel2BClient.classify query,
      n = "Instrument" ∨ n = "Level" ∨ n = "Time" := by
    intro n hn
    rcases (kindFold_mem _ _ _).mp hn with ⟨x, _, hcx⟩
    cases x with
    | Instrument v =>
      simp only [EVELevel2BClient.classify] at hcx
      split at hcx
      · exact Or.inl (Option.some.inj hcx).symm
      · exact Option.noConfusion hcx
    | Level v =>
      cases v with
      | int i => simp [EVELevel2BClient.classify] at hcx
      | str s =>
        simp only [EVELevel2BClient.classify] at hcx
        split at hcx
        · exact Or.inr (Or.inl (Option.some.inj hcx).symm)
        · exact Option.noConfusion hcx
    | Time ts te =>
      simp only [EVELevel2BClient.classify] at hcx
      split at hcx
      · exact Or.inr (Or.inr (Option.some.inj hcx).symm)
      · exact Option.noConfusion hcx
    | Source v => simp [EVELevel2BClient.classify] at hcx
  rw [length_eq_three_iff hnd hsub (by decide) (by decide) (by decide),
    kindFold_mem, kindFold_mem, kindFold_mem,
    EVELevel2BClient.l2b_hit_instrument, EVELevel2BClient.l2b_hit_level,
    EVELevel2BClient.l2b_hit_time]

theorem EVELevel2Client.l2_hit_instrument (query : List Attr) :
    (∃ x ∈ query, EVELevel2Client.classify x = some "Instrument") ↔
      ∃ v, Attr.Instrument v ∈ query ∧ pyLower v = "eve" := by
  constructor
  · rintro ⟨x, hx, hcx⟩
    cases x with
    | Instrument v =>
      refine ⟨v, hx, ?_⟩
      simp only [EVELevel2Client.classify] at hcx
      split at hcx
      · assumption
      · exact Option.noConfusion hcx
    | Level v =>
      exfalso
      cases v with
      | int i =>
        simp only [EVELevel2Client.classify] at hcx
        split at hcx
        · exact absurd (Option.some.inj hcx) (by decide)
        · exact Option.noConfusion hcx
      | str s =>
        simp only [EVELevel2Client.classify] at hcx
        split at hcx
        · exact absurd (Option.some.inj hcx) (by decide)
        · exact Option.noConfusion hcx
    | Time ts te =>
      exfalso
      simp only [EVELevel2Client.classify] at hcx
      split at hcx
      · exact absurd (Option.some.inj hcx) (by decide)
      · exact Option.noConfusion hcx
    | Source v => simp [EVELevel2Client.classify] at hcx
  · rintro ⟨v, hv, hlow⟩
    exact ⟨Attr.Instrument v, hv, by simp [EVELevel2Client.classify, hlow]⟩

theorem EVELevel2Client.l2_hit_level (query : List Attr) :
    (∃ x ∈ query, EVELevel2Client.classify x = some "Level") ↔
      Attr.Level (Value.int 2) ∈ query ∨ Attr.Level (Value.str "2") ∈ query := by
  constructor
  · rintro ⟨x, hx, hcx⟩
    cases x with
    | Instrument v =>
      exfalso
      simp only [EVELevel2Client.classify] at hcx
      split at hcx
      · exact absurd (Option.some.inj hcx) (by decide)
      · exact Option.noConfusion hcx
    | Level v =>
      cases v with
      | int i =>
        simp only [EVELevel2Client.classify] at hcx
        split at hcx
        · subst_vars; exact Or.inl hx
        · exact Option.noConfusion hcx
      | str s =>
        simp only [EVELevel2Client.classify] at hcx
        split at hcx
        · subst_vars; exact Or.inr hx
        · exact Option.noConfusion hcx
    | Time ts te =>
      exfalso
      simp only [EVELevel2Client.classify] at hcx
      split at hcx
      · exact absurd (Option.some.inj hcx) (by decide)
      · exact Option.noConfusion hcx
    | Source v => simp [EVELevel2Client.classify] at hcx
  · rintro (h | h)
    · exact ⟨Attr.Level (Value.int 2), h, by simp [EVELevel2Client.classify]⟩
    · exact ⟨Attr.Level (Value.str "2"), h, by simp [EVELevel2Client.classify]⟩

theorem EVELevel2Client.l2_hit_time (query : List Attr) :
    (∃ x ∈ query, EVELevel2Client.classify x = some "Time") ↔
      ∃ ts te, Attr.Time ts te ∈ query ∧ ts.key < cutover2018_04_28.key := by
  constructor
  · rintro ⟨x, hx, hcx⟩
    cases x with
    | Instrument v =>
      exfalso
      simp only [EVELevel2Client.classify] at hcx
      split at hcx
      · exact absurd (Option.some.inj hcx) (by decide)
      · exact Option.noConfusion hcx
    | Level v =>
      exfalso
      cases v with
      | int i =>
        simp only [EVELevel2Client.classify] at hcx
        split at hcx
        · exact absurd (Option.some.inj hcx) (by decide)
        · exact Option.noConfusion hcx
      | str s =>
        simp only [EVELevel2Client.classify] at hcx
        split at hcx
        · exact absurd (Option.some.inj hcx) (by decide)
        · exact Option.noConfusion hcx
    | Time ts te =>
      refine ⟨ts, te, hx, ?_⟩
      simp only [EVELevel2Client.classify] at hcx
      split at hcx
      · assumption
      · exact Option.noConfusion hcx
    | Source v => simp [EVELevel2Client.classify] at hcx
  · rintro ⟨ts, te, ht, hcut⟩
    exact ⟨Attr.Time ts te, ht, by simp [EVELevel2Client.classify, hcut]⟩

/-- Characterization of the Level-2 predicate. -/
theorem EVELevel2Client.l2_canHandle_iff (query : List Attr) :
    EVELevel2Client.canHandleQuery query = true ↔
      (∃ v, Attr.Instrument v ∈ query ∧ pyLower v = "eve") ∧
      (Attr.Level (Value.int 2) ∈ query ∨
        Attr.Level (Value.str "2") ∈ query) ∧
      (∃ ts te, Attr.Time ts te ∈ query ∧
        ts.key < cutover2018_04_28.key) := by
  unfold EVELevel2Client.canHandleQuery
  rw [beq_iff_eq]
  have hnd := kindFold_nodup EVELevel2Client.classify query
  have hsub : ∀ n ∈ kindFold EVELevel2Client.classify query,
      n = "Instrument" ∨ n = "Level" ∨ n = "Time" := by
    intro n hn
    rcases (kindFold_mem _ _ _).mp hn with ⟨x, _, hcx⟩
    cases x with
    | Instrument v =>
      simp only [EVELevel2Client.classify] at hcx
      split at hcx
      · exact Or.inl (Option.some.inj hcx).symm
      · exact Option.noConfusion hcx
    | Level v =>
      cases v with
      | int i =>
        simp only [EVELevel2Client.classify] at hcx
        split at hcx
        · exact Or.inr (Or.inl (Option.some.inj hcx).symm)
        · exact Option.noConfusion hcx
      | str s =>
        simp only [EVELevel2Client.classify] at hcx
        split at hcx
        · exact Or.inr (Or.inl (Option.some.inj hcx).symm)
        · exact Option.noConfusion hcx
    | Time ts te =>
      simp only [EVELevel2Client.classify] at hcx
      split at hcx
      · exact Or.inr (Or.inr (Option.some.inj hcx).symm)
      · exact Option.noConfusion hcx
    | Source v => simp [EVELevel2Client.classify] at hcx
  rw [length_eq_three_iff hnd hsub (by decide) (by decide) (by decide),
    kindFold_mem, kindFold_mem, kindFold_mem,
    EVELevel2Client.l2_hit_instrument, EVELevel2Client.l2_hit_level,
    EVELevel2Client.l2_hit_time]

theorem EVELevel3Client.l3_hit_instrument (query : List Attr) :
    (∃ x ∈ query, EVELevel3Client.classify x = some "Instrument") ↔
      ∃ v, Attr.Instrument v ∈ query ∧ pyLower v = "eve" := by
  constructor
  · rintro ⟨x, hx, hcx⟩
    cases x with
    | Instrument v =>
      refine ⟨v, hx, ?_⟩
      simp only [EVELevel3Client.classify] at hcx
      split at hcx
      · assumption
      · exact Option.noConfusion hcx
    | Level v =>
      exfalso
      cases v with
      | int i =>
        simp only [EVELevel3Client.classify] at hcx
        split at hcx
        · exact absurd (Option.some.inj hcx) (by decide)
        · exact Option.noConfusion hcx
      | str s =>
        simp only [EVELevel3Client.classify] at hcx
        split at hcx
        · exact absurd (Option.some.inj hcx) (by decide)
        · exact Option.noConfusion hcx
    | Time ts te => simp [EVELevel3Client.classify] at hcx
    | Source v => simp [EVELevel3Client.classify] at hcx
  · rintro ⟨v, hv, hlow⟩
    exact ⟨Attr.Instrument v, hv, by simp [EVELevel3Client.classify, hlow]⟩

theorem EVELevel3Client.l3_hit_level (query : List Attr) :
    (∃ x ∈ query, EVELevel3Client.classify x = some "Level") ↔
      Attr.Level (Value.int 3) ∈ query ∨ Attr.Level (Value.str "3") ∈ query := by
  constructor
  · rintro ⟨x, hx, hcx⟩
    cases x with
    | Instrument v =>
      exfalso
      simp only [EVELevel3Client.classify] at hcx
      split at hcx
      · exact absurd (Option.some.inj hcx) (by decide)
      · exact Option.noConfusion hcx
    | Level v =>
      cases v with
      | int i =>
        simp only [EVELevel3Client.classify] at hcx
        split at hcx
        · subst_vars; exact Or.inl hx
        · exact Option.noConfusion hcx
      | str s =>
        simp only [EVELevel3Client.classify] at hcx
        split at hcx
        · subst_vars; exact Or.inr hx
        · exact Option.noConfusion hcx
    | Time ts te => simp [EVELevel3Client.classify] at hcx
    | Source v => simp [EVELevel3Client.classify] at hcx
  · rintro (h | h)
    · exact ⟨Attr.Level (Value.int 3), h, by simp [EVELevel3Client.classify]⟩
    · exact ⟨Attr.Level (Value.str "3"), h, by simp [EVELevel3Client.classify]⟩

/-- Characterization of the Level-3 predicate. -/
theorem EVELevel3Client.l3_canHandle_iff (query : List Attr) :
    EVELevel3Client.canHandleQuery query = true ↔
      (∃ v, Attr.Instrument v ∈ query ∧ pyLower v = "eve") ∧
      (Attr.Level (Value.int 3) ∈ query ∨
        Attr.Level (Value.str "3") ∈ query) := by
  unfold EVELevel3Client.canHandleQuery
  rw [beq_iff_eq]
  have hnd := kindFold_nodup EVELevel3Client.classify query
  have hsub : ∀ n ∈ kindFold EVELevel3Client.classify query,
      n = "Instrument" ∨ n = "Level" := by
    intro n hn
    rcases (kindFold_mem _ _ _).mp hn with ⟨x, _, hcx⟩
    cases x with
    | Instrument v =>
      simp only [EVELevel3Client.classify] at hcx
      split at hcx
      · exact Or.inl (Option.some.inj hcx).symm
      · exact Option.noConfusion hcx
    | Level v =>
      cases v with
      | int i =>
        simp only [EVELevel3Client.classify] at hcx
        split at hcx
        · exact Or.inr (Option.some.inj hcx).symm
        · exact Option.noConfusion hcx
      | str s =>
        simp only [EVELevel3Client.classify] at hcx
        split at hcx
        · exact Or.inr (Option.some.inj hcx).symm
        · exact Option.noConfusion hcx
    | Time ts te => simp [EVELevel3Client.classify] at hcx
    | Source v => simp [EVELevel3Client.classify] at hcx
  rw [length_eq_two_iff hnd hsub (by decide),
    kindFold_mem, kindFold_mem,
    EVELevel3Client.l3_hit_instrument, EVELevel3Client.l3_hit_level]

theorem EVELevel3MergedClient.l3m_hit_instrument (query : List Attr) :
    (∃ x ∈ query, EVELevel3MergedClient.classify x = some "Instrument") ↔
      ∃ v, Attr.Instrument v ∈ query ∧ pyLower v = "eve" := by
  constructor
  · rintro ⟨x, hx, hcx⟩
    cases x with
    | Instrument v =>
      refine ⟨v, hx, ?_⟩
      simp only [EVELevel3MergedClient.classify] at hcx
      split at hcx
      · assumption
      · exact Option.noConfusion hcx
    | Level v =>
      exfalso
      cases v with
      | int i => simp [EVELevel3MergedClient.classify] at hcx
      | str s =>
        simp only [EVELevel3MergedClient.classify] at hcx
        split at hcx
        · exact absurd (Option.some.inj hcx) (by decide)
        · exact Option.noConfusion hcx
    | Time ts te => simp [EVELevel3MergedClient.classify] at hcx
    | Source v => simp [EVELevel3MergedClient.classify] at hcx
  · rintro ⟨v, hv, hlow⟩
    exact ⟨Attr.Instrument v, hv,
      by simp [EVELevel3MergedClient.classify, hlow]⟩

theorem EVELevel3MergedClient.l3m_hit_level (query : List Attr) :
    (∃ x ∈ query, EVELevel3MergedClient.classify x = some "Level") ↔
      ∃ s, Attr.Level (Value.str s) ∈ query ∧
        (pyLower s = "3m" ∨ pyLower s = "3merged") := by
  constructor
  · rintro ⟨x, hx, hcx⟩
    cases x with
    | Instrument v =>
      exfalso
      simp only [EVELevel3MergedClient.classify] at hcx
      split at hcx
      · exact absurd (Option.some.inj hcx) (by decide)
      · exact Option.noConfusion hcx
    | Level v =>
      cases v with
      | int i => simp [EVELevel3MergedClient.classify] at hcx
      | str s =>
        refine ⟨s, hx, ?_⟩
        simp only [EVELevel3MergedClient.classify] at hcx
        split at hcx
        · assumption
        · exact Option.noConfusion hcx
    | Time ts te => simp [EVELevel3MergedClient.classify] at hcx
    | Source v => simp [EVELevel3MergedClient.classify] at hcx
  · rintro ⟨s, hs, hlow⟩
    exact ⟨Attr.Level (Value.str s), hs,
      by simp only [EVELevel3MergedClient.classify, if_pos hlow]⟩

/-- Characterization of the Level-3-Merged predicate. -/
theorem EVELevel3MergedClient.l3m_canHandle_iff (query : List Attr) :
    EVELevel3MergedClient.canHandleQuery query = true ↔
      (∃ v, Attr.Instrument v ∈ query ∧ pyLower v = "eve") ∧
      (∃ s, Attr.Level (Value.str s) ∈ query ∧
        (pyLower s = "3m" ∨ pyLower s = "3merged")) := by
  unfold EVELevel3MergedClient.canHandleQuery
  rw [beq_iff_eq]
  have hnd := kindFold_nodup EVELevel3MergedClient.classify query
  have hsub : ∀ n ∈ kindFold EVELevel3MergedClient.classify query,
      n = "Instrument" ∨ n = "Level" := by
    intro n hn
    rcases (kindFold_mem _ _ _).mp hn with ⟨x, _, hcx⟩
    cases x with
    | Instrument v =>
      simp only [EVELevel3MergedClient.classify] at hcx
      split at hcx
      · exact Or.inl (Option.some.inj hcx).symm
      · exact Option.noConfusion hcx
    | Level v =>
      cases v with
      | int i => simp [EVELevel3MergedClient.classify] at hcx
      | str s =>
        simp only [EVELevel3MergedClient.classify] at hcx
        split at hcx
        · exact Or.inr (Option.some.inj hcx).symm
        · exact Option.noConfusion hcx
    | Time ts te => simp [EVELevel3MergedClient.classify] at hcx
    | Source v => simp [EVELevel3MergedClient.classify] at hcx
  rw [length_eq_two_iff hnd hsub (by decide),
    kindFold_mem, kindFold_mem,
    EVELevel3MergedClient.l3m_hit_instrument, EVELevel3MergedClient.l3m_hit_level]

theorem EVEClient.countStep_eq (chk : Nat) (x : Attr) :
    EVEClient.countStep chk x =
      if EVEClient.termMatches x then chk + 1 else chk := by
  cases x with
  | Instrument v => simp [EVEClient.countStep, EVEClient.termMatches]
  | Level v => simp [EVEClient.countStep, EVEClient.termMatches]
  | Time ts te => simp [EVEClient.countStep, EVEClient.termMatches]
  | Source v => simp [EVEClient.countStep, EVEClient.termMatches]

theorem EVEClient.countFold_go (q : List Attr) :
    ∀ acc : Nat, q.foldl EVEClient.countStep acc =
      acc + q.countP EVEClient.termMatches := by
  induction q with
  | nil => intro acc; simp
  | cons y ys ih =>
    intro acc
    simp only [List.foldl_cons, List.countP_cons, ih, EVEClient.countStep_eq]
    by_cases h : EVEClient.termMatches y = true
    · simp only [h, if_pos rfl]
      simp
      omega
    · simp only [Bool.not_eq_true] at h
      simp [h]

/-- Characterization of the Level-0 predicate: the running count equals the
number of terms satisfying one of its two checked conditions. -/
theorem EVEClient.l0_canHandle_iff (query : List Attr) :
    EVEClient.canHandleQuery query = true ↔
      query.countP EVEClient.termMatches = 2 := by
  unfold EVEClient.canHandleQuery
  rw [beq_iff_eq, EVEClient.countFold_go]
  omega

/-- A `sunpy.time.TimeRange` value: `stop` models the `.end` attribute. -/
structure TimeRange where
  start : PyDateTime
  stop : PyDateTime
deriving DecidableEq, Repr

/-- `TimeRange('{:%Y-%m-%d}'.format(t), ...)`: the re-parsed date string is
midnight of `t`'s calendar day. -/
def PyDateTime.floorToDay (t : PyDateTime) : PyDateTime :=
  ⟨t.year, t.month, t.day, 0, 0, 0⟩

/-- `TimeRange('{:%Y-%m-%d %H:00}'.format(t), ...)`: the re-parsed string is
the top of `t`'s hour. -/
def PyDateTime.floorToHour (t : PyDateTime) : PyDateTime :=
  ⟨t.year, t.month, t.day, t.hour, 0, 0⟩

/-- Start normalization inside `EVEClient._get_url_for_timerange`
(eve.py lines 68-69): when `timerange.start.time() != datetime.time(0, 0)`
the range is replaced by `TimeRange('{:%Y-%m-%d}'.format(start), end)`. -/
def EVEClient.normalizeTimerange (timerange : TimeRange) : TimeRange :=
  if ¬(timerange.start.hour = 0 ∧ timerange.start.minute = 0 ∧
      timerange.start.second = 0) then
    ⟨timerange.start.floorToDay, timerange.stop⟩
  else timerange

/-- Start normalization inside `EVELevel2BClient._get_url_for_timerange`
(eve.py lines 174-175), identical to the Level-0 daily normalization. -/
def EVELevel2BClient.normalizeTimerange (timerange : TimeRange) : TimeRange :=
  if ¬(timerange.start.hour = 0 ∧ timerange.start.minute = 0 ∧
      timerange.start.second = 0) then
    ⟨timerange.start.floorToDay, timerange.stop⟩
  else timerange

/-- Start normalization inside `EVELevel3Client._get_url_for_timerange`
(eve.py lines 309-310), identical to the Level-0 daily normalization. -/
def EVELevel3Client.normalizeTimerange (timerange : TimeRange) : TimeRange :=
  if ¬(timerange.start.hour = 0 ∧ timerange.start.minute = 0 ∧
      timerange.start.second = 0) then
    ⟨timerange.start.floorToDay, timerange.stop⟩
  else timerange

/-- Start normalization inside `EVELevel2Client._get_url_for_timerange`
(eve.py lines 241-242), hourly data: when
`timerange.start.time() != datetime.time(timerange.start.hour, 0)` the range
is replaced by `TimeRange('{:%Y-%m-%d %H:00}'.format(start), end)`. -/
def EVELevel2Client.normalizeTimerange (timerange : TimeRange) : TimeRange :=
  if ¬(timerange.start.minute = 0 ∧ timerange.start.second = 0) then
    ⟨timerange.start.floorToHour, timerange.stop⟩
  else timerange

theorem PyDateTime.floorToDay_key_le (t : PyDateTime) :
    t.floorToDay.key ≤ t.key := by
  simp only [PyDateTime.floorToDay, PyDateTime.key]
  omega

theorem PyDateTime.floorToHour_key_le (t : PyDateTime) :
    t.floorToHour.key ≤ t.key := by
  simp only [PyDateTime.floorToHour, PyDateTime.key]
  omega

/-- `_BaseEVEClient._HOST_URL` (eve.py line 125). -/
def hostURL : String :=
  "http://lasp.colorado.edu/eve/data_access/evewebdataproducts/"

/-- `BASEURL` (eve.py lines 16-17), the Level-0 quicklook pattern. -/
def BASEURL : String :=
  "http://lasp.colorado.edu/eve/data_access/evewebdata/quicklook/L0CS/SpWx/%Y/%Y%m%d_EVE_L0CS_DIODES_1m.txt"

/-- `EVELevel3MergedClient._PRODUCT_URL` (eve.py line 349). -/
def EVELevel3MergedClient.productURL : String :=
  "merged/latest_EVE_L3_merged.fit"

/-- `datetime.datetime(1900, 1, 1)`: the sentinel epoch the merged client
uses as the start of its full-history interval. -/
def epoch1900 : PyDateTime := ⟨1900, 1, 1, 0, 0, 0⟩

/-- Modelled from the spec: `Scraper.filelist` (`sunpy.util.scraper`, not
among the sources here) applied to the merged product's pattern, which holds
no date tokens; per the spec, "regardless of input range, Enumeration
returns exactly one URL" for the perpetual variant — the single concrete
path rendered from the bound pattern. -/
def mergedScraperFilelist (_timerange : TimeRange) : List String :=
  [hostURL ++ EVELevel3MergedClient.productURL]

/-- `EVELevel3MergedClient._get_url_for_timerange` (eve.py lines 356-375):
the requested range is discarded and the scraper is invoked on the fixed
interval `TimeRange('1900/01/01', datetime.date.today())`. -/
def EVELevel3MergedClient.getUrlForTimerange (today : PyDateTime)
    (_timerange : TimeRange) : List String :=
  mergedScraperFilelist ⟨epoch1900, today⟩

/-- `EVELevel3MergedClient._get_time_for_url` (eve.py lines 377-383): every
URL is paired with `TimeRange('1900/01/01', datetime.date.today())`. -/
def EVELevel3MergedClient.getTimeForUrl (today : PyDateTime)
    (urls : List String) : List TimeRange :=
  urls.map (fun _ => ⟨epoch1900, today⟩)

/-- `_BaseEVEClient._PRODUCT_URL = NotImplemented` (eve.py line 126); the
`NotImplemented` sentinel is modelled as `none`. -/
def BaseEVEClient.productURL : Option String := none

/-- `EVELevel2BClient._PRODUCT_URL` (eve.py line 150). -/
def EVELevel2BClient.productURLPat : Option String :=
  some "level2b/%Y/%j/EV\x7bproduct\x7d_L2B_%Y%j_\x7bversion:03d\x7d_\x7brevision:02d\x7d.fit.gz"

/-- `EVELevel2Client._PRODUCT_URL` (eve.py line 219). -/
def EVELevel2Client.productURLPat : Option String :=
  some "level2/%Y/%j/EV\x7bproduct\x7d_L2_%Y%j_%H_\x7bversion:03d\x7d_\x7brevision:02d\x7d.fit.gz"

/-- `EVELevel3Client._PRODUCT_URL` (eve.py line 285). -/
def EVELevel3Client.productURLPat : Option String :=
  some "level3/%Y/EVE_L3_%Y%j_\x7bversion:03d\x7d_\x7brevision:02d\x7d.fit"

/-- `EVELevel3MergedClient._PRODUCT_URL` as the overriding class attribute. -/
def EVELevel3MergedClient.productURLPat : Option String :=
  some EVELevel3MergedClient.productURL

/-- `_BaseEVEClient.__init__` (eve.py lines 131-136): after the superclass
constructor it raises `NotImplementedError` when `_PRODUCT_URL` is still the
`NotImplemented` sentinel, otherwise builds the scraper on
`_HOST_URL + _PRODUCT_URL`.  The superclass `GenericClient.__init__` (not
among the sources here) is modelled from the spec as performing no check. -/
def baseEVEInit (productURL : Option String) : Except String String :=
  match productURL with
  | none => Except.error "NotImplementedError"
  | some u => Except.ok (hostURL ++ u)

/-- Modelled from the spec: `EVEClient` (Level-0) subclasses only
`GenericClient`, whose constructor (not among the sources here) performs no
URL-pattern check; construction succeeds and scraping uses the module
constant `BASEURL`. -/
def EVEClient.init : Except String String := Except.ok BASEURL

/-- `EVESpWxTimeSeries._source` (timeseries eve.py line 72). -/
def EVESpWxTimeSeries.sourceName : String := "eve"

/-- `EVEScanTimeSeries._source` (timeseries eve.py line 247). -/
def EVEScanTimeSeries.sourceName : String := "eve_l2b"

/-- `EVESpWxTimeSeries.is_datasource_for` (timeseries eve.py lines 209-213):
`kwargs.get('source', '')` is `none` when the key is absent; a falsy (empty)
value falls through, returning the implicit Python `None` (`none` here);
otherwise the lowercased value is compared with `cls._source`. -/
def EVESpWxTimeSeries.isDatasourceFor (source : Option String) : Option Bool :=
  if source.getD "" ≠ "" then
    some (pyLower (source.getD "") == EVESpWxTimeSeries.sourceName)
  else
    none

/-- `re.match(r'^eve[_ ]l2b?$', s, re.I)` as its truthiness: the anchored
pattern matches exactly the strings whose lowercasing is one of the four
listed words. -/
def matchesEveScanSource (s : String) : Bool :=
  pyLower s == "eve_l2" || pyLower s == "eve l2" ||
    pyLower s == "eve_l2b" || pyLower s == "eve l2b"

/-- `EVEScanTimeSeries.is_datasource_for` (timeseries eve.py lines 342-347):
absent or empty `source` falls through to the implicit Python `None`;
otherwise the result is `re.match(r'^eve[_ ]l2b?$', kwargs['source'], re.I)`,
modelled by the truthiness of that match. -/
def EVEScanTimeSeries.isDatasourceFor (source : Option String) : Option Bool :=
  if source.getD "" ≠ "" then
    some (matchesEveScanSource (source.getD ""))
  else
    none

/-- Whether a term, if it is a `Time` term, has `start` on or after the
2018-04-28 cutover (non-`Time` terms pass vacuously). -/
def startsAtOrAfterCutoverB (x : Attr) : Bool :=
  match x with
  | .Time ts _ => decide (cutover2018_04_28.key ≤ ts.key)
  | _ => true

/-- Claim C1: the Level-2B predicate returns true exactly when the query terms
include an Instrument term with value "eve" (case-insensitive), a
string-valued Level term equal to "2b" (case-insensitive), and a Time term
whose end is on or after 2018-04-20; the collection
of Instrument("eve"), Level("2b"), Time(2018-04-20, 2018-04-20) yields
true, and replacing the Level term with a duplicate Instrument("eve") term
yields false. -/
theorem claim_C1 :
    (∀ query : List Attr,
      EVELevel2BClient.canHandleQuery query = true ↔
        (∃ v, Attr.Instrument v ∈ query ∧ pyLower v = "eve") ∧
        (∃ s, Attr.Level (Value.str s) ∈ query ∧ pyLower s = "2b") ∧
        (∃ ts te, Attr.Time ts te ∈ query ∧
          cutover2018_04_20.key ≤ te.key)) ∧
    EVELevel2BClient.canHandleQuery
      [Attr.Instrument "eve", Attr.Level (Value.str "2b"),
       Attr.Time ⟨2018, 4, 20, 0, 0, 0⟩ ⟨2018, 4, 20, 0, 0, 0⟩] = true ∧
    EVELevel2BClient.canHandleQuery
      [Attr.Instrument "eve", Attr.Instrument "eve",
       Attr.Time ⟨2018, 4, 20, 0, 0, 0⟩ ⟨2018, 4, 20, 0, 0, 0⟩] = false :=
  ⟨EVELevel2BClient.l2b_canHandle_iff, by decide, by decide⟩

/-- Claim C2, counterexample: the query of Instrument("eve"), Level(2),
Time(2018-04-01, 2018-05-01) has its Time end after 2018-04-28, yet the
Level-2 predicate returns true (the code compares the Time term's start,
not its end, against the cutover), refuting the claim as stated. -/
theorem claim_C2_counterexample :
    EVELevel2Client.canHandleQuery
      [Attr.Instrument "eve", Attr.Level (Value.int 2),
       Attr.Time ⟨2018, 4, 1, 0, 0, 0⟩ ⟨2018, 5, 1, 0, 0, 0⟩] = true := by
  decide

/-- Claim C2, amended: for the Level-2 predicate, a Level term with integer value
2 and a Level term with string value "2" both satisfy the level requirement,
and every query whose every Time term has start on or after 2018-04-28
returns false. -/
theorem claim_C2 :
    EVELevel2Client.canHandleQuery
      [Attr.Instrument "eve", Attr.Level (Value.int 2),
       Attr.Time ⟨2018, 4, 1, 0, 0, 0⟩ ⟨2018, 4, 1, 0, 0, 0⟩] = true ∧
    EVELevel2Client.canHandleQuery
      [Attr.Instrument "eve", Attr.Level (Value.str "2"),
       Attr.Time ⟨2018, 4, 1, 0, 0, 0⟩ ⟨2018, 4, 1, 0, 0, 0⟩] = true ∧
    ∀ query : List Attr,
      query.all startsAtOrAfterCutoverB = true →
      EVELevel2Client.canHandleQuery query = false := by
  refine ⟨by decide, by decide, ?_⟩
  intro query hall
  rw [Bool.eq_false_iff]
  intro htrue
  rcases (EVELevel2Client.l2_canHandle_iff query).mp htrue with
    ⟨_, _, ts, te, ht, hlt⟩
  have := List.all_eq_true.mp hall _ ht
  simp only [startsAtOrAfterCutoverB, decide_eq_true_eq] at this
  omega

/-- Witness for C2: the amended falsity at a concrete query whose Time term
starts on the cutover. -/
theorem claim_C2_witness :
    ([Attr.Instrument "eve", Attr.Level (Value.int 2),
      Attr.Time ⟨2018, 4, 28, 0, 0, 0⟩ ⟨2018, 4, 29, 0, 0, 0⟩] :
        List Attr).all startsAtOrAfterCutoverB = true ∧
    EVELevel2Client.canHandleQuery
      [Attr.Instrument "eve", Attr.Level (Value.int 2),
       Attr.Time ⟨2018, 4, 28, 0, 0, 0⟩ ⟨2018, 4, 29, 0, 0, 0⟩] = false :=
  ⟨by decide, claim_C2.2.2 _ (by decide)⟩

/-- Claim C3: the Level-0 predicate returns true iff the plain running count of
terms matching its two checked conditions equals exactly 2; consequently a
query of two Instrument("eve") terms and no Level term returns true. -/
theorem claim_C3 :
    (∀ query : List Attr,
      EVEClient.canHandleQuery query = true ↔
        query.countP EVEClient.termMatches = 2) ∧
    EVEClient.canHandleQuery
      [Attr.Instrument "eve", Attr.Instrument "eve"] = true :=
  ⟨EVEClient.l0_canHandle_iff, by decide⟩

/-- Claim C4, counterexample: the collection of Instrument("eve"), Level(3),
Time(2018-04-20, 2018-04-20) contains a term beyond the Level-3
predicate's required kinds, yet the predicate returns true — the
kind-set predicates test containment, not exact equality. -/
theorem claim_C4_counterexample :
    EVELevel3Client.canHandleQuery
      [Attr.Instrument "eve", Attr.Level (Value.int 3),
       Attr.Time ⟨2018, 4, 20, 0, 0, 0⟩ ⟨2018, 4, 20, 0, 0, 0⟩] = true := by
  decide

/-- Claim C4, amended: each kind-set predicate returns true iff the collection
contains at least one term satisfying each of the variant's required kinds
(surplus terms, of checked or unchecked kinds, never disqualify), and the
Level-0 counter variant returns true iff exactly two terms match its
checked conditions; in particular the Level-3 and Level-3-Merged predicates
accept collections containing terms beyond the required ones. -/
theorem claim_C4 :
    (∀ query : List Attr,
      EVELevel2BClient.canHandleQuery query = true ↔
        (∃ v, Attr.Instrument v ∈ query ∧ pyLower v = "eve") ∧
        (∃ s, Attr.Level (Value.str s) ∈ query ∧ pyLower s = "2b") ∧
        (∃ ts te, Attr.Time ts te ∈ query ∧
          cutover2018_04_20.key ≤ te.key)) ∧
    (∀ query : List Attr,
      EVELevel2Client.canHandleQuery query = true ↔
        (∃ v, Attr.Instrument v ∈ query ∧ pyLower v = "eve") ∧
        (Attr.Level (Value.int 2) ∈ query ∨
          Attr.Level (Value.str "2") ∈ query) ∧
        (∃ ts te, Attr.Time ts te ∈ query ∧
          ts.key < cutover2018_04_28.key)) ∧
    (∀ query : List Attr,
      EVELevel3Client.canHandleQuery query = true ↔
        (∃ v, Attr.Instrument v ∈ query ∧ pyLower v = "eve") ∧
        (Attr.Level (Value.int 3) ∈ query ∨
          Attr.Level (Value.str "3") ∈ query)) ∧
    (∀ query : List Attr,
      EVELevel3MergedClient.canHandleQuery query = true ↔
        (∃ v, Attr.Instrument v ∈ query ∧ pyLower v = "eve") ∧
        (∃ s, Attr.Level (Value.str s) ∈ query ∧
          (pyLower s = "3m" ∨ pyLower s = "3merged"))) ∧
    (∀ query : List Attr,
      EVEClient.canHandleQuery query = true ↔
        query.countP EVEClient.termMatches = 2) ∧
    EVELevel3Client.canHandleQuery
      [Attr.Instrument "eve", Attr.Level (Value.int 3),
       Attr.Source "sdo"] = true ∧
    EVELevel3MergedClient.canHandleQuery
      [Attr.Instrument "eve", Attr.Level (Value.str "3m"),
       Attr.Source "sdo"] = true :=
  ⟨EVELevel2BClient.l2b_canHandle_iff, EVELevel2Client.l2_canHandle_iff,
   EVELevel3Client.l3_canHandle_iff, EVELevel3MergedClient.l3m_canHandle_iff,
   EVEClient.l0_canHandle_iff, by decide, by decide⟩

/-- Claim C5: on every window with start on or after 2018-04-20 and end on or
before 2018-04-27 (inclusive, to second precision), the Level-2 predicate
(with Level(2) or Level("2")) and the Level-2B predicate (with Level("2b"))
all return true for otherwise-identical queries differing only in the
Level term. -/
theorem claim_C5 :
    ∀ ts te : PyDateTime,
      cutover2018_04_20.key ≤ ts.key →
      ts.key ≤ te.key →
      te.key ≤ (⟨2018, 4, 27, 23, 59, 59⟩ : PyDateTime).key →
      EVELevel2Client.canHandleQuery
        [Attr.Instrument "eve", Attr.Level (Value.int 2),
         Attr.Time ts te] = true ∧
      EVELevel2Client.canHandleQuery
        [Attr.Instrument "eve", Attr.Level (Value.str "2"),
         Attr.Time ts te] = true ∧
      EVELevel2BClient.canHandleQuery
        [Attr.Instrument "eve", Attr.Level (Value.str "2b"),
         Attr.Time ts te] = true := by
  intro ts te h20 hse h27
  have hlt : ts.key < cutover2018_04_28.key := by
    have hbound : (⟨2018, 4, 27, 23, 59, 59⟩ : PyDateTime).key <
        cutover2018_04_28.key := by decide
    omega
  have hte : cutover2018_04_20.key ≤ te.key := le_trans h20 hse
  refine ⟨?_, ?_, ?_⟩
  · exact (EVELevel2Client.l2_canHandle_iff _).mpr
      ⟨⟨"eve", by simp, by decide⟩, Or.inl (by simp),
       ⟨ts, te, by simp, hlt⟩⟩
  · exact (EVELevel2Client.l2_canHandle_iff _).mpr
      ⟨⟨"eve", by simp, by decide⟩, Or.inr (by simp),
       ⟨ts, te, by simp, hlt⟩⟩
  · exact (EVELevel2BClient.l2b_canHandle_iff _).mpr
      ⟨⟨"eve", by simp, by decide⟩, ⟨"2b", by simp, by decide⟩,
       ⟨ts, te, by simp, hte⟩⟩

/-- Witness for C5 at the single day 2018-04-20. -/
theorem claim_C5_witness :
    (cutover2018_04_20.key ≤ (⟨2018, 4, 20, 0, 0, 0⟩ : PyDateTime).key ∧
     (⟨2018, 4, 20, 0, 0, 0⟩ : PyDateTime).key ≤
       (⟨2018, 4, 20, 0, 0, 0⟩ : PyDateTime).key ∧
     (⟨2018, 4, 20, 0, 0, 0⟩ : PyDateTime).key ≤
       (⟨2018, 4, 27, 23, 59, 59⟩ : PyDateTime).key) ∧
    EVELevel2Client.canHandleQuery
      [Attr.Instrument "eve", Attr.Level (Value.int 2),
       Attr.Time ⟨2018, 4, 20, 0, 0, 0⟩ ⟨2018, 4, 20, 0, 0, 0⟩] = true ∧
    EVELevel2BClient.canHandleQuery
      [Attr.Instrument "eve", Attr.Level (Value.str "2b"),
       Attr.Time ⟨2018, 4, 20, 0, 0, 0⟩ ⟨2018, 4, 20, 0, 0, 0⟩] = true :=
  ⟨⟨by decide, by decide, by decide⟩,
   (claim_C5 _ _ (by decide) (by decide) (by decide)).1,
   (claim_C5 _ _ (by decide) (by decide) (by decide)).2.2⟩

theorem dailyNorm_spec (tr : TimeRange) (f : TimeRange → TimeRange)
    (hf : f tr = if ¬(tr.start.hour = 0 ∧ tr.start.minute = 0 ∧
        tr.start.second = 0) then ⟨tr.start.floorToDay, tr.stop⟩ else tr) :
    (f tr).stop = tr.stop ∧ (f tr).start.key ≤ tr.start.key ∧
      (¬(tr.start.hour = 0 ∧ tr.start.minute = 0 ∧ tr.start.second = 0) →
        (f tr).start = tr.start.floorToDay) := by
  by_cases h : tr.start.hour = 0 ∧ tr.start.minute = 0 ∧ tr.start.second = 0
  · rw [hf, if_neg (not_not_intro h)]
    exact ⟨rfl, le_refl _, fun hc => absurd h hc⟩
  · rw [hf, if_pos h]
    exact ⟨rfl, PyDateTime.floorToDay_key_le _, fun _ => rfl⟩

theorem hourlyNorm_spec (tr : TimeRange) (f : TimeRange → TimeRange)
    (hf : f tr = if ¬(tr.start.minute = 0 ∧ tr.start.second = 0) then
        ⟨tr.start.floorToHour, tr.stop⟩ else tr) :
    (f tr).stop = tr.stop ∧ (f tr).start.key ≤ tr.start.key ∧
      (¬(tr.start.minute = 0 ∧ tr.start.second = 0) →
        (f tr).start = tr.start.floorToHour) := by
  by_cases h : tr.start.minute = 0 ∧ tr.start.second = 0
  · rw [hf, if_neg (not_not_intro h)]
    exact ⟨rfl, le_refl _, fun hc => absurd h hc⟩
  · rw [hf, if_pos h]
    exact ⟨rfl, PyDateTime.floorToHour_key_le _, fun _ => rfl⟩

/-- Claim C6: the interval normalization of each `_get_url_for_timerange`
leaves the end unchanged and rounds the start down (normalized start ≤
original start): the daily clients (Level-0, Level-2B, Level-3) replace a
start not at 00:00 by midnight of its calendar day, and the hourly Level-2
client replaces a start not at minute 0 (and second 0) by the top of its
hour. -/
theorem claim_C6 :
    ∀ tr : TimeRange,
      ((EVEClient.normalizeTimerange tr).stop = tr.stop ∧
       (EVEClient.normalizeTimerange tr).start.key ≤ tr.start.key ∧
       (¬(tr.start.hour = 0 ∧ tr.start.minute = 0 ∧ tr.start.second = 0) →
         (EVEClient.normalizeTimerange tr).start = tr.start.floorToDay)) ∧
      ((EVELevel2BClient.normalizeTimerange tr).stop = tr.stop ∧
       (EVELevel2BClient.normalizeTimerange tr).start.key ≤ tr.start.key ∧
       (¬(tr.start.hour = 0 ∧ tr.start.minute = 0 ∧ tr.start.second = 0) →
         (EVELevel2BClient.normalizeTimerange tr).start =
           tr.start.floorToDay)) ∧
      ((EVELevel3Client.normalizeTimerange tr).stop = tr.stop ∧
       (EVELevel3Client.normalizeTimerange tr).start.key ≤ tr.start.key ∧
       (¬(tr.start.hour = 0 ∧ tr.start.minute = 0 ∧ tr.start.second = 0) →
         (EVELevel3Client.normalizeTimerange tr).start =
           tr.start.floorToDay)) ∧
      ((EVELevel2Client.normalizeTimerange tr).stop = tr.stop ∧
       (EVELevel2Client.normalizeTimerange tr).start.key ≤ tr.start.key ∧
       (¬(tr.start.minute = 0 ∧ tr.start.second = 0) →
         (EVELevel2Client.normalizeTimerange tr).start =
           tr.start.floorToHour)) :=
  fun tr =>
    ⟨dailyNorm_spec tr _ rfl, dailyNorm_spec tr _ rfl,
     dailyNorm_spec tr _ rfl, hourlyNorm_spec tr _ rfl⟩

/-- Witness for C6 at a start of 14:30:00: the daily Level-0 normalizer
snaps to midnight and the hourly Level-2 normalizer snaps to 14:00. -/
theorem claim_C6_witness :
    (EVEClient.normalizeTimerange
        ⟨⟨2012, 5, 5, 14, 30, 0⟩, ⟨2012, 5, 6, 0, 0, 0⟩⟩).start =
      (⟨2012, 5, 5, 14, 30, 0⟩ : PyDateTime).floorToDay ∧
    (EVELevel2Client.normalizeTimerange
        ⟨⟨2018, 1, 1, 14, 30, 0⟩, ⟨2018, 1, 1, 15, 0, 0⟩⟩).start =
      (⟨2018, 1, 1, 14, 30, 0⟩ : PyDateTime).floorToHour :=
  ⟨(claim_C6 ⟨⟨2012, 5, 5, 14, 30, 0⟩, ⟨2012, 5, 6, 0, 0, 0⟩⟩).1.2.2
      (by decide),
   (claim_C6 ⟨⟨2018, 1, 1, 14, 30, 0⟩, ⟨2018, 1, 1, 15, 0, 0⟩⟩).2.2.2.2.2
      (by decide)⟩

/-- Claim C7: the perpetual Level-3-Merged variant ignores the requested
range — for a fixed `today`, `_get_url_for_timerange` returns the same
single URL for every input range, namely the scraper enumeration of the
fixed interval 1900-01-01 through today — and `_get_time_for_url` pairs
every URL in its input, independent of its content, with the sentinel
TimeRange 1900-01-01 through today. -/
theorem claim_C7 :
    (∀ (today : PyDateTime) (tr1 tr2 : TimeRange),
      EVELevel3MergedClient.getUrlForTimerange today tr1 =
        EVELevel3MergedClient.getUrlForTimerange today tr2) ∧
    (∀ (today : PyDateTime) (tr : TimeRange),
      EVELevel3MergedClient.getUrlForTimerange today tr =
        mergedScraperFilelist ⟨epoch1900, today⟩ ∧
      (EVELevel3MergedClient.getUrlForTimerange today tr).length = 1) ∧
    (∀ (today : PyDateTime) (urls : List String),
      (EVELevel3MergedClient.getTimeForUrl today urls).length =
        urls.length ∧
      ∀ t ∈ EVELevel3MergedClient.getTimeForUrl today urls,
        t = ⟨epoch1900, today⟩) := by
  refine ⟨fun _ _ _ => rfl, fun _ _ => ⟨rfl, rfl⟩,
    fun today urls => ⟨by simp [EVELevel3MergedClient.getTimeForUrl], ?_⟩⟩
  intro t ht
  rcases List.mem_map.mp ht with ⟨u, _, rfl⟩
  rfl

/-- Witness for C7: the reconstructed range for the merged URL is the
sentinel interval. -/
theorem claim_C7_witness :
    (⟨epoch1900, ⟨2026, 10, 12, 0, 0, 0⟩⟩ : TimeRange) ∈
      EVELevel3MergedClient.getTimeForUrl ⟨2026, 10, 12, 0, 0, 0⟩
        [hostURL ++ EVELevel3MergedClient.productURL] ∧
    (⟨epoch1900, ⟨2026, 10, 12, 0, 0, 0⟩⟩ : TimeRange) =
      ⟨epoch1900, ⟨2026, 10, 12, 0, 0, 0⟩⟩ :=
  ⟨by decide,
   (claim_C7.2.2 ⟨2026, 10, 12, 0, 0, 0⟩
       [hostURL ++ EVELevel3MergedClient.productURL]).2 _ (by decide)⟩

/-- Claim C8: constructing a client whose URL pattern is still the
`NotImplemented` sentinel (as for `_BaseEVEClient` itself) fails at
construction with `NotImplementedError`, while each of the five concrete
variants constructs without error (the four level-2+ variants bind concrete
patterns; the Level-0 `EVEClient` performs no pattern check). -/
theorem claim_C8 :
    (baseEVEInit BaseEVEClient.productURL).isOk = false ∧
    baseEVEInit BaseEVEClient.productURL =
      Except.error "NotImplementedError" ∧
    (baseEVEInit EVELevel2BClient.productURLPat).isOk = true ∧
    (baseEVEInit EVELevel2Client.productURLPat).isOk = true ∧
    (baseEVEInit EVELevel3Client.productURLPat).isOk = true ∧
    (baseEVEInit EVELevel3MergedClient.productURLPat).isOk = true ∧
    EVEClient.init.isOk = true :=
  ⟨rfl, rfl, rfl, rfl, rfl, rfl, rfl⟩

/-- Claim C9: the four kind-set predicates are monotone under appending a
query term, while the Level-0 counter predicate is not — appending a
duplicate Instrument("eve") to the satisfying collection of
Instrument("eve"), Level(0) makes it return false. -/
theorem claim_C9 :
    (∀ (query : List Attr) (x : Attr),
      EVELevel2BClient.canHandleQuery query = true →
      EVELevel2BClient.canHandleQuery (query ++ [x]) = true) ∧
    (∀ (query : List Attr) (x : Attr),
      EVELevel2Client.canHandleQuery query = true →
      EVELevel2Client.canHandleQuery (query ++ [x]) = true) ∧
    (∀ (query : List Attr) (x : Attr),
      EVELevel3Client.canHandleQuery query = true →
      EVELevel3Client.canHandleQuery (query ++ [x]) = true) ∧
    (∀ (query : List Attr) (x : Attr),
      EVELevel3MergedClient.canHandleQuery query = true →
      EVELevel3MergedClient.canHandleQuery (query ++ [x]) = true) ∧
    EVEClient.canHandleQuery
      [Attr.Instrument "eve", Attr.Level (Value.int 0)] = true ∧
    EVEClient.canHandleQuery
      [Attr.Instrument "eve", Attr.Level (Value.int 0),
       Attr.Instrument "eve"] = false := by
  refine ⟨?_, ?_, ?_, ?_, by decide, by decide⟩
  · intro query x h
    rcases (EVELevel2BClient.l2b_canHandle_iff query).mp h with
      ⟨⟨v, hv, h1⟩, ⟨s, hs, h2⟩, ⟨ts, te, ht, h3⟩⟩
    exact (EVELevel2BClient.l2b_canHandle_iff _).mpr
      ⟨⟨v, List.mem_append_left _ hv, h1⟩,
       ⟨s, List.mem_append_left _ hs, h2⟩,
       ⟨ts, te, List.mem_append_left _ ht, h3⟩⟩
  · intro query x h
    rcases (EVELevel2Client.l2_canHandle_iff query).mp h with
      ⟨⟨v, hv, h1⟩, h2, ⟨ts, te, ht, h3⟩⟩
    refine (EVELevel2Client.l2_canHandle_iff _).mpr
      ⟨⟨v, List.mem_append_left _ hv, h1⟩, ?_,
       ⟨ts, te, List.mem_append_left _ ht, h3⟩⟩
    rcases h2 with h2 | h2
    · exact Or.inl (List.mem_append_left _ h2)
    · exact Or.inr (List.mem_append_left _ h2)
  · intro query x h
    rcases (EVELevel3Client.l3_canHandle_iff query).mp h with ⟨⟨v, hv, h1⟩, h2⟩
    refine (EVELevel3Client.l3_canHandle_iff _).mpr
      ⟨⟨v, List.mem_append_left _ hv, h1⟩, ?_⟩
    rcases h2 with h2 | h2
    · exact Or.inl (List.mem_append_left _ h2)
    · exact Or.inr (List.mem_append_left _ h2)
  · intro query x h
    rcases (EVELevel3MergedClient.l3m_canHandle_iff query).mp h with
      ⟨⟨v, hv, h1⟩, ⟨s, hs, h2⟩⟩
    exact (EVELevel3MergedClient.l3m_canHandle_iff _).mpr
      ⟨⟨v, List.mem_append_left _ hv, h1⟩,
       ⟨s, List.mem_append_left _ hs, h2⟩⟩

/-- Witness for C9: appending a Source term to a satisfying Level-2B query
keeps it satisfied, and appending a duplicate Instrument term to a
satisfying Level-3 query keeps it satisfied. -/
theorem claim_C9_witness :
    EVELevel2BClient.canHandleQuery
      ([Attr.Instrument "eve", Attr.Level (Value.str "2b"),
        Attr.Time ⟨2018, 4, 20, 0, 0, 0⟩ ⟨2018, 4, 20, 0, 0, 0⟩] ++
        [Attr.Source "sdo"]) = true ∧
    EVELevel3Client.canHandleQuery
      ([Attr.Instrument "eve", Attr.Level (Value.int 3)] ++
        [Attr.Instrument "eve"]) = true :=
  ⟨claim_C9.1 _ _ (by decide), claim_C9.2.2.1 _ _ (by decide)⟩

/-- Claim C10: with the 'source' keyword absent or the empty string, both
`is_datasource_for` methods fall through and return the implicit Python
None (never an explicit False); an explicit value is only returned for a
non-empty source; and `EVEScanTimeSeries` matches the case-insensitive
anchored pattern eve[_ ]l2b? — accepting e.g. 'eve_l2' and 'eve l2b' — not
only the exact string 'eve_l2b'. -/
theorem claim_C10 :
    EVESpWxTimeSeries.isDatasourceFor none = none ∧
    EVESpWxTimeSeries.isDatasourceFor (some "") = none ∧
    EVEScanTimeSeries.isDatasourceFor none = none ∧
    EVEScanTimeSeries.isDatasourceFor (some "") = none ∧
    (∀ s : String,
      (EVESpWxTimeSeries.isDatasourceFor (some s)).isSome = true →
        s ≠ "") ∧
    (∀ s : String,
      (EVEScanTimeSeries.isDatasourceFor (some s)).isSome = true →
        s ≠ "") ∧
    EVEScanTimeSeries.isDatasourceFor (some "eve_l2") = some true ∧
    EVEScanTimeSeries.isDatasourceFor (some "eve l2b") = some true ∧
    EVEScanTimeSeries.isDatasourceFor (some "EVE_L2B") = some true ∧
    EVEScanTimeSeries.isDatasourceFor (some "eve_l2b") = some true := by
  refine ⟨rfl, rfl, rfl, rfl, ?_, ?_, by decide, by decide, by decide,
    by decide⟩
  · intro s hs
    intro hempty
    subst hempty
    simp [EVESpWxTimeSeries.isDatasourceFor] at hs
  · intro s hs
    intro hempty
    subst hempty
    simp [EVEScanTimeSeries.isDatasourceFor] at hs

/-- Witness for C10: a non-empty source reaches an explicit result. -/
theorem claim_C10_witness :
    (EVEScanTimeSeries.isDatasourceFor (some "eve_l2")).isSome = true ∧
    ("eve_l2" : String) ≠ "" :=
  ⟨by decide, claim_C10.2.2.2.2.2.1 "eve_l2" (by decide)⟩

end Sunpy
